import Mathlib

/-!
Shallow embedding of `src/cuda_backend.rs` (a CUDA tensor-storage backend:
typed device storage, a per-device kernel cache with on-the-fly JIT
compilation, elementwise fill/affine kernels, and host/device transfer).

Modelling conventions:
* Machine floating-point arithmetic is not shallow-embeddable bit-for-bit, so
  the primitive operations the kernels use (`f64 → f32` narrowing cast,
  multiplication and addition at each precision, the zero produced by a
  zeroed allocation, the `f64` literal `1.0`) are collected in a `FloatModel`
  parameter.  Every theorem quantifies over the model; witnesses instantiate
  a concrete computable model.
* The `cudarc` driver layer is an external collaborator that the spec fixes
  only at its interface; it is modelled as explicit state (the per-device
  module cache) plus an `Oracle` deciding the outcome of the fallible driver
  primitives (allocation, copy, launch, JIT compilation), plus an `Event`
  log recording every driver call the backend makes.
* Device buffers are modelled by the list of values they hold; the two CUDA
  kernel bodies embedded as source text in the Rust file are translated into
  the Lean functions `affineKernel` and `fillThread`/`fillKernel`.
-/

namespace CandleCuda

/-- Abstract model of the machine floating-point semantics used by the
backend: the two element types, the `as f32` narrowing cast, the per-type
multiply and add that the kernels perform, the value held by zero-filled
memory, and the `f64` literal `1.0` appearing in `ones_impl`. -/
structure FloatModel where
  F32 : Type
  F64 : Type
  toF32 : F64 → F32
  mul32 : F32 → F32 → F32
  add32 : F32 → F32 → F32
  mul64 : F64 → F64 → F64
  add64 : F64 → F64 → F64
  zero32 : F32
  zero64 : F64
  one64 : F64

/-- The dtype enumeration (`crate::DType`); the backend matches exactly the
two variants `F32` and `F64`. -/
inductive DType where
  | F32
  | F64
deriving DecidableEq

/-- Modelled from the spec: the host-side shape type (`crate::Shape`), a
list of dimensions; only `elem_count` and `is_contiguous` are consumed by
this backend. -/
abbrev Shape := List Nat

/-- Modelled from the spec: `Shape::elem_count`, the total element count of
the shape (product of the dimensions). -/
def Shape.elem_count (s : Shape) : Nat := s.prod

/-- Helper for `Shape.is_contiguous`: walks dimensions and strides from the
innermost axis outwards, requiring each stride to equal the running product
of the inner dimensions (row-major packing). -/
def contiguousFrom : List Nat → List Nat → Nat → Bool
  | [], [], _ => true
  | d :: ds, st :: sts, acc => (st == acc) && contiguousFrom ds sts (acc * d)
  | _, _, _ => false

/-- Modelled from the spec: `Shape::is_contiguous(stride)` — the stride
matches row-major packing with no gaps (glossary, "Contiguous layout"). -/
def Shape.is_contiguous (s : Shape) (stride : List Nat) : Bool :=
  contiguousFrom s.reverse stride.reverse 1

/-- The CPU-resident storage (`crate::CpuStorage`): a flat typed buffer
matching one of the supported dtypes. -/
inductive CpuStorage (M : FloatModel) where
  | F32 : List M.F32 → CpuStorage M
  | F64 : List M.F64 → CpuStorage M

/-- Opaque driver-level error (`cudarc::driver::DriverError`). -/
structure DriverError where
  code : Nat
deriving DecidableEq

/-- Opaque JIT-compilation error (`cudarc::nvrtc::CompileError`). -/
structure CompileError where
  code : Nat
deriving DecidableEq

/-- The error taxonomy of the backend (`enum CudaError`). -/
inductive CudaError where
  | Cuda : DriverError → CudaError
  | Compiler : CompileError → CudaError
  | RequiresContiguous : String → CudaError
  | MissingKernel : String → CudaError
deriving DecidableEq

/-- A compiled PTX module (`cudarc::nvrtc::Ptx`), abstracted to the set of
externally callable entry points it exposes. -/
structure Ptx where
  entryPoints : List String
deriving DecidableEq

/-- A loaded, invocable kernel handle (`cudarc::driver::CudaFunction`),
identified by the entry-point name it was resolved under. -/
structure CudaFunction where
  name : String
deriving DecidableEq

/-- One driver call made by the backend; the log of these events is what the
behavioural claims about allocation, compilation and launches inspect. -/
inductive Event where
  | allocZeros : Nat → Event
  | alloc : Nat → Event
  | compile : String → String → Event
  | loadModule : String → Event
  | launch : String → Event
  | htodCopy : Nat → Event
  | dtohCopy : Nat → Event
deriving DecidableEq

/-- The mutable per-device driver state visible to this backend: the map
from loaded module name to the function names registered for it (cudarc's
module cache backing `has_func` / `load_ptx` / `get_func`). -/
structure DeviceState where
  modules : List (String × List String)
deriving DecidableEq

/-- Driver primitive `get_func(module, fname)`: the loaded function handle,
if the module is loaded and registered that function name. -/
def DeviceState.get_func (st : DeviceState) (modName fnName : String) :
    Option CudaFunction :=
  match st.modules.find? (fun p => p.1 == modName) with
  | some p => if p.2.contains fnName then some ⟨fnName⟩ else none
  | none => none

/-- Driver primitive `has_func(module, fname)`. -/
def DeviceState.has_func (st : DeviceState) (modName fnName : String) : Bool :=
  (st.get_func modName fnName).isSome

/-- Driver primitive `load_ptx(ptx, module, fn_names)`: registers the module
under `modName` with the requested function names that the compiled PTX
actually exposes (the spec's interface for module loading). -/
def DeviceState.load_ptx (st : DeviceState) (ptx : Ptx) (modName : String)
    (fns : List String) : DeviceState :=
  ⟨(modName, fns.filter (fun f => ptx.entryPoints.contains f)) :: st.modules⟩

/-- Environment deciding the outcome of every fallible driver primitive: the
JIT compiler's verdict on each source text, whether each allocation / copy /
launch call fails with a driver error, and the junk contents of
uninitialized allocations. -/
structure Oracle (M : FloatModel) where
  compilePtx : String → Except CompileError Ptx
  allocZerosFail : Nat → Option DriverError
  allocFail : Nat → Option DriverError
  uninit32 : Nat → List M.F32
  uninit64 : Nat → List M.F64
  uninit32_len : ∀ n, (uninit32 n).length = n
  uninit64_len : ∀ n, (uninit64 n).length = n
  htodFail : Option DriverError
  dtohFail : Option DriverError
  launchFail : Option DriverError

/-- The kernel launch configuration (`cudarc`'s
`LaunchConfig::for_num_elems`); modelled from the spec: grid/block sizing
derived deterministically from the element count with total threads at
least the element count. -/
structure LaunchConfig where
  gridDim : Nat
  blockDim : Nat
deriving DecidableEq

/-- Modelled from the spec: `LaunchConfig::for_num_elems(n)` uses 1024
threads per block and enough blocks to cover `n` elements. -/
def LaunchConfig.for_num_elems (n : Nat) : LaunchConfig :=
  ⟨(n + 1024 - 1) / 1024, 1024⟩

/-- Total number of threads provided by a launch configuration. -/
def LaunchConfig.nthreads (c : LaunchConfig) : Nat := c.gridDim * c.blockDim

/-- Name of the embedded CUDA source text `AFFINE_CU`; its two kernels
`affine_f32` / `affine_f64` are translated by `affineKernel` below. -/
def AFFINE_CU : String := "AFFINE_CU"

/-- Name of the embedded CUDA source text `FILL_CU`; its kernels
`fill_f16` / `fill_f32` / `fill_f64` share the grid-stride template
`fill_with` translated by `fillThread` below. -/
def FILL_CU : String := "FILL_CU"

/-- Translation of the `affine_*` kernels of `AFFINE_CU`: every thread `i`
of the launch returns immediately when `i >= numel` and otherwise writes
`y[i] = x[i] * mul + add` at the buffer's precision.  The fold over
`List.range nthreads` runs the (pairwise index-disjoint) threads. -/
def affineKernel (mulOp addOp : α → α → α) (x : List α) (numel : Nat)
    (m a : α) (nthreads : Nat) (y : List α) : List α :=
  (List.range nthreads).foldl
    (fun yb i =>
      if i < numel then
        match x[i]? with
        | some xi => yb.set i (addOp (mulOp xi m) a)
        | none => yb
      else yb) y

/-- Translation of the grid-stride loop body `fill_with` of `FILL_CU` for a
single thread starting at index `i0`:
`for (i = i0; i < numel; i += stride) buf[i] = value;`.
The loop is bounded by explicit fuel; `fillKernel` supplies fuel `numel`,
which is enough iterations for any positive stride. -/
def fillThread (v : α) (numel stride : Nat) : Nat → Nat → List α → List α
  | 0, _, buf => buf
  | fuel + 1, i, buf =>
    if i < numel then fillThread v numel stride fuel (i + stride) (buf.set i v)
    else buf

/-- Translation of a full launch of a `fill_*` kernel of `FILL_CU`: thread
`i0` ranges over the `nthreads` threads of the launch and the stride of the
grid-stride loop is the total thread count `blockDim.x * gridDim.x`. -/
def fillKernel (v : α) (numel nthreads : Nat) (buf : List α) : List α :=
  (List.range nthreads).foldl (fun b i0 => fillThread v numel nthreads numel i0 b) buf

/-- Result type of every backend operation: the `Result` value together
with the device state after the call and the log of driver calls made. -/
abbrev CudaResult (α : Type u) := Except CudaError α × DeviceState × List Event

/-- Embedding of `CudaDevice::get_or_load_func`: if the cache misses,
JIT-compile the source and load the module registering the single function
name `modName`; then resolve the function, reporting `MissingKernel` when
it is absent. -/
def get_or_load_func (M : FloatModel) (o : Oracle M) (modName source : String)
    (st : DeviceState) : CudaResult CudaFunction :=
  match
    (if st.has_func modName modName then (Except.ok (), st, ([] : List Event))
     else
       match o.compilePtx source with
       | .error e => (.error (.Compiler e), st, [.compile modName source])
       | .ok ptx =>
         (.ok (), st.load_ptx ptx modName [modName],
          [.compile modName source, .loadModule modName])) with
  | (.error e, st2, ev) => (.error e, st2, ev)
  | (.ok _, st2, ev) =>
    match st2.get_func modName modName with
    | some f => (.ok f, st2, ev)
    | none => (.error (.MissingKernel modName), st2, ev)

/-- The typed device storage (`enum CudaStorage`), each variant wrapping one
device buffer of its element type (buffers modelled by their contents). -/
inductive CudaStorage (M : FloatModel) where
  | F32 : List M.F32 → CudaStorage M
  | F64 : List M.F64 → CudaStorage M

/-- `CudaStorage::dtype`. -/
def CudaStorage.dtype {M : FloatModel} : CudaStorage M → DType
  | .F32 _ => .F32
  | .F64 _ => .F64

/-- Embedding of `CudaDevice::zeros_impl`: dispatch on the dtype and obtain
a zero-initialized buffer of `shape.elem_count()` elements from the
driver's `alloc_zeros` primitive; no kernel is resolved or launched. -/
def zeros_impl (M : FloatModel) (o : Oracle M) (shape : Shape) (dtype : DType)
    (st : DeviceState) : CudaResult (CudaStorage M) :=
  let elem_count := shape.elem_count
  match dtype with
  | .F32 =>
    match o.allocZerosFail elem_count with
    | some e => (.error (.Cuda e), st, [.allocZeros elem_count])
    | none =>
      (.ok (.F32 (List.replicate elem_count M.zero32)), st, [.allocZeros elem_count])
  | .F64 =>
    match o.allocZerosFail elem_count with
    | some e => (.error (.Cuda e), st, [.allocZeros elem_count])
    | none =>
      (.ok (.F64 (List.replicate elem_count M.zero64)), st, [.allocZeros elem_count])

/-- Embedding of `CudaDevice::const_impl`: allocate an uninitialized buffer
of `shape.elem_count()` elements, resolve the fill kernel for the dtype via
the cache, and launch it with the scalar — narrowed by `v as f32` for the
`F32` variant, passed through for `F64`.  The launch configuration is
derived from `elem_count as u32`, i.e. the element count wrapped modulo
`2 ^ 32`, while the kernel's `numel` parameter receives the full element
count. -/
def const_impl (M : FloatModel) (o : Oracle M) (v : M.F64) (shape : Shape)
    (dtype : DType) (st : DeviceState) : CudaResult (CudaStorage M) :=
  let elem_count := shape.elem_count
  let cfg := LaunchConfig.for_num_elems (elem_count % 2 ^ 32)
  match dtype with
  | .F32 =>
    match o.allocFail elem_count with
    | some e => (.error (.Cuda e), st, [.alloc elem_count])
    | none =>
      let data := o.uninit32 elem_count
      match get_or_load_func M o "fill_f32" FILL_CU st with
      | (.error e, st2, ev) => (.error e, st2, .alloc elem_count :: ev)
      | (.ok _, st2, ev) =>
        match o.launchFail with
        | some e =>
          (.error (.Cuda e), st2, .alloc elem_count :: (ev ++ [.launch "fill_f32"]))
        | none =>
          (.ok (.F32 (fillKernel (M.toF32 v) elem_count cfg.nthreads data)), st2,
           .alloc elem_count :: (ev ++ [.launch "fill_f32"]))
  | .F64 =>
    match o.allocFail elem_count with
    | some e => (.error (.Cuda e), st, [.alloc elem_count])
    | none =>
      let data := o.uninit64 elem_count
      match get_or_load_func M o "fill_f64" FILL_CU st with
      | (.error e, st2, ev) => (.error e, st2, .alloc elem_count :: ev)
      | (.ok _, st2, ev) =>
        match o.launchFail with
        | some e =>
          (.error (.Cuda e), st2, .alloc elem_count :: (ev ++ [.launch "fill_f64"]))
        | none =>
          (.ok (.F64 (fillKernel v elem_count cfg.nthreads data)), st2,
           .alloc elem_count :: (ev ++ [.launch "fill_f64"]))

/-- Embedding of `CudaDevice::ones_impl`: `const_impl(1., shape, dtype)`. -/
def ones_impl (M : FloatModel) (o : Oracle M) (shape : Shape) (dtype : DType)
    (st : DeviceState) : CudaResult (CudaStorage M) :=
  const_impl M o M.one64 shape dtype st

/-- Embedding of `CudaDevice::cuda_from_cpu_storage`: a synchronous
host-to-device copy of the matching variant's buffer. -/
def cuda_from_cpu_storage (M : FloatModel) (o : Oracle M)
    (storage : CpuStorage M) (st : DeviceState) : CudaResult (CudaStorage M) :=
  match storage with
  | .F32 xs =>
    match o.htodFail with
    | some e => (.error (.Cuda e), st, [.htodCopy xs.length])
    | none => (.ok (.F32 xs), st, [.htodCopy xs.length])
  | .F64 xs =>
    match o.htodFail with
    | some e => (.error (.Cuda e), st, [.htodCopy xs.length])
    | none => (.ok (.F64 xs), st, [.htodCopy xs.length])

/-- Embedding of `CudaStorage::affine_impl`: reject non-contiguous layouts
up front with `RequiresContiguous { op: "affine" }`; otherwise resolve the
affine kernel for the variant, allocate an uninitialized output buffer of
the same element count, and launch the kernel — with `mul as f32` /
`add as f32` for the `F32` variant, full-precision scalars for `F64`.  The
launch configuration is derived from `elem_count as u32`, i.e. the element
count wrapped modulo `2 ^ 32`, while the kernel's `numel` parameter
receives the full element count. -/
def affine_impl (M : FloatModel) (o : Oracle M) (self : CudaStorage M)
    (shape : Shape) (stride : List Nat) (mul add : M.F64) (st : DeviceState) :
    CudaResult (CudaStorage M) :=
  if ! shape.is_contiguous stride then
    (.error (.RequiresContiguous "affine"), st, [])
  else
    let elem_count := shape.elem_count
    let cfg := LaunchConfig.for_num_elems (elem_count % 2 ^ 32)
    match self with
    | .F32 arg =>
      match get_or_load_func M o "affine_f32" AFFINE_CU st with
      | (.error e, st2, ev) => (.error e, st2, ev)
      | (.ok _, st2, ev) =>
        match o.allocFail elem_count with
        | some e => (.error (.Cuda e), st2, ev ++ [.alloc elem_count])
        | none =>
          let out := o.uninit32 elem_count
          match o.launchFail with
          | some e =>
            (.error (.Cuda e), st2, ev ++ [.alloc elem_count, .launch "affine_f32"])
          | none =>
            (.ok (.F32 (affineKernel M.mul32 M.add32 arg elem_count
                (M.toF32 mul) (M.toF32 add) cfg.nthreads out)), st2,
             ev ++ [.alloc elem_count, .launch "affine_f32"])
    | .F64 arg =>
      match get_or_load_func M o "affine_f64" AFFINE_CU st with
      | (.error e, st2, ev) => (.error e, st2, ev)
      | (.ok _, st2, ev) =>
        match o.allocFail elem_count with
        | some e => (.error (.Cuda e), st2, ev ++ [.alloc elem_count])
        | none =>
          let out := o.uninit64 elem_count
          match o.launchFail with
          | some e =>
            (.error (.Cuda e), st2, ev ++ [.alloc elem_count, .launch "affine_f64"])
          | none =>
            (.ok (.F64 (affineKernel M.mul64 M.add64 arg elem_count
                mul add cfg.nthreads out)), st2,
             ev ++ [.alloc elem_count, .launch "affine_f64"])

/-- Embedding of `CudaStorage::to_cpu_storage`: a synchronous
device-to-host copy of the whole buffer of the matching variant. -/
def to_cpu_storage (M : FloatModel) (o : Oracle M) (self : CudaStorage M)
    (st : DeviceState) : CudaResult (CpuStorage M) :=
  match self with
  | .F32 xs =>
    match o.dtohFail with
    | some e => (.error (.Cuda e), st, [.dtohCopy xs.length])
    | none => (.ok (.F32 xs), st, [.dtohCopy xs.length])
  | .F64 xs =>
    match o.dtohFail with
    | some e => (.error (.Cuda e), st, [.dtohCopy xs.length])
    | none => (.ok (.F64 xs), st, [.dtohCopy xs.length])

/-! Helper lemmas about the launch configuration and the two kernels. -/

/-- The launch configuration derived from an element count always provides
at least that many threads. -/
theorem for_num_elems_nthreads_ge (n : Nat) :
    n ≤ (LaunchConfig.for_num_elems n).nthreads := by
  simp only [LaunchConfig.for_num_elems, LaunchConfig.nthreads]
  omega

/-- Running the affine kernel does not change the output buffer's length. -/
theorem affineKernel_length (mulOp addOp : α → α → α) (x : List α)
    (numel : Nat) (m a : α) (nthreads : Nat) (y : List α) :
    (affineKernel mulOp addOp x numel m a nthreads y).length = y.length := by
  induction nthreads generalizing y with
  | zero => rfl
  | succ n ih =>
    simp only [affineKernel, List.range_succ, List.foldl_append, List.foldl_cons,
      List.foldl_nil] at *
    by_cases hn : n < numel
    · cases hx : x[n]? <;> simp [hn, hx, ih]
    · simp [hn, ih]

/-- Pointwise characterization of the affine kernel: index `j` holds the
affine image of `x[j]` when some thread covered it (`j < nthreads`), the
guard passed (`j < numel`) and the input read was in bounds; otherwise the
output buffer is untouched there. -/
theorem affineKernel_getElem? (mulOp addOp : α → α → α) (x : List α)
    (numel : Nat) (m a : α) (nthreads : Nat) (y : List α)
    (hy : y.length = numel) (j : Nat) :
    (affineKernel mulOp addOp x numel m a nthreads y)[j]? =
      if j < numel ∧ j < nthreads ∧ j < x.length then
        (x[j]?).map (fun xi => addOp (mulOp xi m) a)
      else y[j]? := by
  induction nthreads with
  | zero => simp [affineKernel]
  | succ n ih =>
    have hlen : (affineKernel mulOp addOp x numel m a n y).length = numel := by
      rw [affineKernel_length]; exact hy
    simp only [affineKernel, List.range_succ, List.foldl_append, List.foldl_cons,
      List.foldl_nil] at *
    by_cases hn : n < numel
    · cases hx : x[n]? with
      | some xn =>
        simp only [hn, if_true, hx]
        by_cases hj : j = n
        · subst hj
          have hjx : j < x.length := by
            have := List.getElem?_eq_some_iff.mp hx
            exact this.1
          rw [List.getElem?_set_self (by omega)]
          simp [hn, hjx, hx]
        · rw [List.getElem?_set_ne (by omega)]
          rw [ih]
          by_cases hcond : j < numel ∧ j < n ∧ j < x.length
          · have : j < numel ∧ j < n + 1 ∧ j < x.length := ⟨hcond.1, by omega, hcond.2.2⟩
            simp [hcond, this]
          · have : ¬ (j < numel ∧ j < n + 1 ∧ j < x.length) := by
              intro h
              exact hcond ⟨h.1, by omega, h.2.2⟩
            simp only [if_neg hcond, if_neg this]
      | none =>
        have hxn : x.length ≤ n := List.getElem?_eq_none_iff.mp hx
        simp only [hn, if_true, hx]
        rw [ih]
        by_cases hcond : j < numel ∧ j < n ∧ j < x.length
        · have : j < numel ∧ j < n + 1 ∧ j < x.length := ⟨hcond.1, by omega, hcond.2.2⟩
          simp [hcond, this]
        · have : ¬ (j < numel ∧ j < n + 1 ∧ j < x.length) := by
            intro h
            exact hcond ⟨h.1, by omega, h.2.2⟩
          simp only [if_neg hcond, if_neg this]
    · simp only [hn, if_false]
      rw [ih]
      by_cases hcond : j < numel ∧ j < n ∧ j < x.length
      · have : j < numel ∧ j < n + 1 ∧ j < x.length := ⟨hcond.1, by omega, hcond.2.2⟩
        simp [hcond, this]
      · have : ¬ (j < numel ∧ j < n + 1 ∧ j < x.length) := by
          intro h
          refine hcond ⟨h.1, ?_, h.2.2⟩
          omega
        simp only [if_neg hcond, if_neg this]

/-- With enough threads and matching buffer lengths, the affine kernel
computes exactly the elementwise map `xi * m + a`. -/
theorem affineKernel_eq_map (mulOp addOp : α → α → α) (x : List α)
    (numel : Nat) (m a : α) (nthreads : Nat) (y : List α)
    (hx : x.length = numel) (hy : y.length = numel) (hn : numel ≤ nthreads) :
    affineKernel mulOp addOp x numel m a nthreads y =
      x.map (fun xi => addOp (mulOp xi m) a) := by
  apply List.ext_getElem?
  intro j
  rw [affineKernel_getElem? mulOp addOp x numel m a nthreads y hy j,
    List.getElem?_map]
  by_cases hj : j < numel
  · have h1 : j < nthreads := by omega
    have h2 : j < x.length := by omega
    simp [hj, h1, h2]
  · have hcond : ¬ (j < numel ∧ j < nthreads ∧ j < x.length) := fun h => hj h.1
    have hxe : x[j]? = none := List.getElem?_eq_none (by omega)
    have hye : y[j]? = none := List.getElem?_eq_none (by omega)
    rw [if_neg hcond, hxe, hye]
    rfl

/-- One grid-stride thread does not change the buffer's length. -/
theorem fillThread_length (v : α) (numel stride : Nat) :
    ∀ (fuel i : Nat) (buf : List α),
      (fillThread v numel stride fuel i buf).length = buf.length := by
  intro fuel
  induction fuel with
  | zero => intro i buf; rfl
  | succ fuel ih =>
    intro i buf
    simp only [fillThread]
    by_cases h : i < numel
    · rw [if_pos h, ih, List.length_set]
    · rw [if_neg h]

/-- Pointwise characterization of one grid-stride thread: it writes `v` at
exactly the in-range indices `i0 + k * stride` it can reach within its
fuel, leaving every other index unchanged. -/
theorem fillThread_getElem? (v : α) (numel stride : Nat) :
    ∀ (fuel i0 : Nat) (buf : List α) (j : Nat),
      (fillThread v numel stride fuel i0 buf)[j]? =
        if j < numel ∧ ∃ k, k < fuel ∧ j = i0 + k * stride then
          (if j < buf.length then some v else none)
        else buf[j]? := by
  intro fuel
  induction fuel with
  | zero =>
    intro i0 buf j
    have : ¬ (j < numel ∧ ∃ k, k < 0 ∧ j = i0 + k * stride) := by
      rintro ⟨-, k, hk, -⟩
      omega
    rw [if_neg this]
    rfl
  | succ fuel ih =>
    intro i0 buf j
    simp only [fillThread]
    by_cases hi : i0 < numel
    · rw [if_pos hi, ih]
      by_cases hj : j = i0
      · subst hj
        have hC : j < numel ∧ ∃ k, k < fuel + 1 ∧ j = j + k * stride :=
          ⟨hi, 0, by omega, by omega⟩
        rw [if_pos hC, List.length_set]
        by_cases hC1 : j < numel ∧ ∃ k, k < fuel ∧ j = j + stride + k * stride
        · rw [if_pos hC1]
        · rw [if_neg hC1]
          by_cases hlen : j < buf.length
          · rw [if_pos hlen, List.getElem?_set_self hlen]
          · rw [if_neg hlen, List.getElem?_eq_none (by rw [List.length_set]; omega)]
      · have hCiff : (j < numel ∧ ∃ k, k < fuel ∧ j = i0 + stride + k * stride) ↔
            (j < numel ∧ ∃ k, k < fuel + 1 ∧ j = i0 + k * stride) := by
          constructor
          · rintro ⟨h1, k, hk, he⟩
            refine ⟨h1, k + 1, by omega, ?_⟩
            rw [Nat.succ_mul]
            omega
          · rintro ⟨h1, k, hk, he⟩
            match k with
            | 0 => exact absurd (by omega : j = i0) hj
            | k + 1 =>
              refine ⟨h1, k, by omega, ?_⟩
              rw [Nat.succ_mul] at he
              omega
        rw [List.length_set, List.getElem?_set_ne (by omega)]
        by_cases hC : j < numel ∧ ∃ k, k < fuel + 1 ∧ j = i0 + k * stride
        · rw [if_pos (hCiff.mpr hC), if_pos hC]
        · rw [if_neg (fun h => hC (hCiff.mp h)), if_neg hC]
    · rw [if_neg hi]
      have : ¬ (j < numel ∧ ∃ k, k < fuel + 1 ∧ j = i0 + k * stride) := by
        rintro ⟨h1, k, -, he⟩
        have : i0 ≤ j := by omega
        omega
      rw [if_neg this]

/-- Folding fill threads over any thread list does not change the buffer's
length. -/
theorem fillFold_length (v : α) (numel stride fuel : Nat) (l : List Nat) :
    ∀ (buf : List α),
      (l.foldl (fun b i0 => fillThread v numel stride fuel i0 b) buf).length =
        buf.length := by
  induction l with
  | nil => intro buf; rfl
  | cons i0 l ih =>
    intro buf
    rw [List.foldl_cons, ih, fillThread_length]

/-- Folding fill threads leaves every index at or beyond `numel`
unchanged. -/
theorem fillFold_getElem?_high (v : α) (numel stride fuel : Nat)
    (l : List Nat) :
    ∀ (buf : List α) (j : Nat), ¬ j < numel →
      (l.foldl (fun b i0 => fillThread v numel stride fuel i0 b) buf)[j]? =
        buf[j]? := by
  induction l with
  | nil => intro buf j _; rfl
  | cons i0 l ih =>
    intro buf j h
    rw [List.foldl_cons, ih _ _ h, fillThread_getElem?,
      if_neg (fun hc => h hc.1)]

/-- Once an index holds the fill value, later fill threads keep it. -/
theorem fillFold_keep (v : α) (numel stride fuel : Nat) (l : List Nat) :
    ∀ (buf : List α) (j : Nat), buf[j]? = some v →
      (l.foldl (fun b i0 => fillThread v numel stride fuel i0 b) buf)[j]? =
        some v := by
  induction l with
  | nil => intro buf j h; exact h
  | cons i0 l ih =>
    intro buf j h
    rw [List.foldl_cons]
    apply ih
    rw [fillThread_getElem?]
    have hlen : j < buf.length := by
      rcases List.getElem?_eq_some_iff.mp h with ⟨hlt, -⟩
      exact hlt
    by_cases hc : j < numel ∧ ∃ k, k < fuel ∧ j = i0 + k * stride
    · rw [if_pos hc, if_pos hlen]
    · rw [if_neg hc]
      exact h

/-- Pointwise effect of a full fill-kernel launch with at least one thread:
every in-range index of the buffer holds the fill value, every other index
is unchanged.  No lower bound on `nthreads` relative to `numel` is needed:
the grid-stride loop covers all elements even when threads are fewer than
elements. -/
theorem fillKernel_getElem? (v : α) (numel nthreads : Nat)
    (h1 : 1 ≤ nthreads) (buf : List α) (j : Nat) :
    (fillKernel v numel nthreads buf)[j]? =
      if j < numel ∧ j < buf.length then some v else buf[j]? := by
  by_cases hj : j < numel ∧ j < buf.length
  · rw [if_pos hj]
    have ht : j % nthreads ∈ List.range nthreads :=
      List.mem_range.mpr (Nat.mod_lt j (by omega))
    rcases List.append_of_mem ht with ⟨l1, l2, hsplit⟩
    unfold fillKernel
    rw [hsplit, List.foldl_append, List.foldl_cons]
    apply fillFold_keep
    rw [fillThread_getElem?]
    have hb1len :
        (l1.foldl (fun b i0 => fillThread v numel nthreads numel i0 b) buf).length =
          buf.length := fillFold_length v numel nthreads numel l1 buf
    have hc : j < numel ∧ ∃ k, k < numel ∧ j = j % nthreads + k * nthreads := by
      refine ⟨hj.1, j / nthreads, ?_, ?_⟩
      · have := Nat.div_le_self j nthreads
        omega
      · have := Nat.mod_add_div' j nthreads
        omega
    rw [if_pos hc, if_pos (by omega)]
  · rw [if_neg hj]
    by_cases hnum : j < numel
    · have hlen : ¬ j < buf.length := fun h => hj ⟨hnum, h⟩
      have hres :
          (fillKernel v numel nthreads buf).length = buf.length :=
        fillFold_length v numel nthreads numel (List.range nthreads) buf
      rw [List.getElem?_eq_none (by omega), List.getElem?_eq_none (by omega)]
    · exact fillFold_getElem?_high v numel nthreads numel (List.range nthreads)
        buf j hnum

/-- A fill-kernel launch over a buffer of exactly `numel` elements yields
the constant buffer. -/
theorem fillKernel_eq_replicate (v : α) (numel nthreads : Nat)
    (h1 : 1 ≤ nthreads) (buf : List α) (hb : buf.length = numel) :
    fillKernel v numel nthreads buf = List.replicate numel v := by
  apply List.ext_getElem?
  intro j
  rw [fillKernel_getElem? v numel nthreads h1 buf j, List.getElem?_replicate]
  by_cases hj : j < numel
  · rw [if_pos ⟨hj, by omega⟩, if_pos hj]
  · rw [if_neg (fun h => hj h.1), if_neg hj, List.getElem?_eq_none (by omega)]

/-! Helper lemmas about the kernel cache. -/

/-- Number of JIT compilations for a given cache key in an event log. -/
def countCompiles (k : String) (evs : List Event) : Nat :=
  (evs.filter (fun e =>
    match e with
    | .compile m _ => m == k
    | _ => false)).length

theorem countCompiles_append (k : String) (l1 l2 : List Event) :
    countCompiles k (l1 ++ l2) = countCompiles k l1 + countCompiles k l2 := by
  unfold countCompiles
  rw [List.filter_append, List.length_append]

/-- Loading a module under a different name does not affect lookups of a
key. -/
theorem get_func_load_ptx_ne (st : DeviceState) (ptx : Ptx)
    (modName : String) (fns : List String) (k fn : String) (hne : modName ≠ k) :
    (st.load_ptx ptx modName fns).get_func k fn = st.get_func k fn := by
  unfold DeviceState.load_ptx DeviceState.get_func
  rw [List.find?_cons_of_neg]
  simp [hne]

/-- After loading a module registering its own entry point, the lookup for
that key succeeds. -/
theorem get_func_load_ptx_self (st : DeviceState) (ptx : Ptx) (k : String)
    (h2 : k ∈ ptx.entryPoints) :
    (st.load_ptx ptx k [k]).get_func k k = some ⟨k⟩ := by
  unfold DeviceState.load_ptx DeviceState.get_func
  rw [List.find?_cons_of_pos _ (by simp)]
  simp [h2]

/-- Cache hit: `get_or_load_func` performs no driver call at all, leaves the
device state unchanged and returns the cached handle. -/
theorem get_or_load_func_hit (M : FloatModel) (o : Oracle M)
    (modName source : String) (st : DeviceState)
    (h : st.has_func modName modName = true) :
    ∃ f, get_or_load_func M o modName source st = (.ok f, st, []) := by
  have h' := h
  unfold DeviceState.has_func at h'
  rcases Option.isSome_iff_exists.mp h' with ⟨f, hf⟩
  refine ⟨f, ?_⟩
  simp [get_or_load_func, h, hf]

/-- Cache miss with a successful compilation exposing the key: exactly one
compilation happens, the module is loaded, and the handle is returned. -/
theorem get_or_load_func_miss_ok (M : FloatModel) (o : Oracle M)
    (modName source : String) (st : DeviceState) (ptx : Ptx)
    (h1 : o.compilePtx source = .ok ptx) (h2 : modName ∈ ptx.entryPoints)
    (hmiss : st.has_func modName modName = false) :
    get_or_load_func M o modName source st =
      (.ok ⟨modName⟩, st.load_ptx ptx modName [modName],
       [.compile modName source, .loadModule modName]) := by
  simp [get_or_load_func, hmiss, h1, get_func_load_ptx_self st ptx modName h2]

/-- In every case, `get_or_load_func` succeeds when the source compiles to a
module exposing the key. -/
theorem get_or_load_func_ok (M : FloatModel) (o : Oracle M)
    (modName source : String) (st : DeviceState) (ptx : Ptx)
    (h1 : o.compilePtx source = .ok ptx) (h2 : modName ∈ ptx.entryPoints) :
    ∃ f st2 ev, get_or_load_func M o modName source st = (.ok f, st2, ev) := by
  by_cases hh : st.has_func modName modName = true
  · rcases get_or_load_func_hit M o modName source st hh with ⟨f, hf⟩
    exact ⟨f, st, [], hf⟩
  · exact ⟨⟨modName⟩, _, _,
      get_or_load_func_miss_ok M o modName source st ptx h1 h2
        (by simpa using hh)⟩

/-- A `get_or_load_func` call for a different key never compiles the given
key and does not affect its cache entry. -/
theorem get_or_load_func_other_key (M : FloatModel) (o : Oracle M)
    (modName source : String) (st : DeviceState) (k : String)
    (hne : modName ≠ k) :
    countCompiles k (get_or_load_func M o modName source st).2.2 = 0 ∧
    ((get_or_load_func M o modName source st).2.1).has_func k k =
      st.has_func k k := by
  by_cases hh : st.has_func modName modName = true
  · rcases get_or_load_func_hit M o modName source st hh with ⟨f, hf⟩
    rw [hf]
    exact ⟨rfl, rfl⟩
  · have hmiss : st.has_func modName modName = false := by simpa using hh
    cases h1 : o.compilePtx source with
    | error e =>
      simp only [get_or_load_func, hmiss, Bool.false_eq_true, if_false, h1]
      constructor
      · simp [countCompiles, hne]
      · trivial
    | ok ptx =>
      simp only [get_or_load_func, hmiss, Bool.false_eq_true, if_false, h1]
      cases hg : (st.load_ptx ptx modName [modName]).get_func modName modName with
      | some f =>
        constructor
        · simp [countCompiles, hne]
        · unfold DeviceState.has_func
          rw [get_func_load_ptx_ne st ptx modName [modName] k k hne]
      | none =>
        constructor
        · simp [countCompiles, hne]
        · unfold DeviceState.has_func
          rw [get_func_load_ptx_ne st ptx modName [modName] k k hne]

/-! Sequential invocation traces of the kernel cache. -/

/-- A sequence of kernel-cache resolutions (each invocation of an operation
resolves its kernel by one `get_or_load_func` call): runs the calls
left-to-right through the device state, collecting all driver events. -/
def runCalls (M : FloatModel) (o : Oracle M) :
    List (String × String) → DeviceState → DeviceState × List Event
  | [], st => (st, [])
  | c :: cs, st =>
    match get_or_load_func M o c.1 c.2 st with
    | (_, st2, ev) =>
      match runCalls M o cs st2 with
      | (st3, evs) => (st3, ev ++ evs)

/-- Sequential at-most-once compilation: if the source registered for key
`k` compiles to a module exposing `k`, then any sequence of cache
resolutions that always pairs `k` with that source compiles `k` at most
once — and not at all when the key is already cached. -/
theorem runCalls_compile_once (M : FloatModel) (o : Oracle M)
    (k s : String) (ptx : Ptx)
    (h1 : o.compilePtx s = .ok ptx) (h2 : k ∈ ptx.entryPoints)
    (calls : List (String × String))
    (hcons : ∀ c ∈ calls, c.1 = k → c.2 = s) (st : DeviceState) :
    countCompiles k (runCalls M o calls st).2 ≤
      if st.has_func k k then 0 else 1 := by
  induction calls generalizing st with
  | nil =>
    simp only [runCalls, countCompiles, List.filter_nil, List.length_nil]
    split <;> omega
  | cons c cs ih =>
    have hcons' : ∀ c ∈ cs, c.1 = k → c.2 = s :=
      fun c hc => hcons c (List.mem_cons_of_mem _ hc)
    by_cases hkey : c.1 = k
    · have hsrc : c.2 = s := hcons c (List.mem_cons_self c cs) hkey
      by_cases hhit : st.has_func k k = true
      · rcases get_or_load_func_hit M o k s st hhit with ⟨f, hf⟩
        simp only [runCalls, hkey, hsrc, hf]
        have := ih hcons' st
        cases hrun : runCalls M o cs st with
        | mk st3 evs =>
          simp only [hrun] at this ⊢
          rw [List.nil_append]
          simpa [hhit] using this
      · have hmiss : st.has_func k k = false := by simpa using hhit
        have hload := get_or_load_func_miss_ok M o k s st ptx h1 h2 hmiss
        simp only [runCalls, hkey, hsrc, hload]
        have hafter : (st.load_ptx ptx k [k]).has_func k k = true := by
          unfold DeviceState.has_func
          rw [get_func_load_ptx_self st ptx k h2]
          rfl
        have := ih hcons' (st.load_ptx ptx k [k])
        cases hrun : runCalls M o cs (st.load_ptx ptx k [k]) with
        | mk st3 evs =>
          simp only [hrun] at this ⊢
          rw [countCompiles_append]
          have hone : countCompiles k [Event.compile k s, Event.loadModule k] = 1 := by
            simp [countCompiles]
          have h0 : countCompiles k evs ≤ 0 := by
            rw [hafter] at this
            simpa using this
          rw [hone, hmiss]
          simp only [Bool.false_eq_true, if_false]
          omega
    · have hother := get_or_load_func_other_key M o c.1 c.2 st k hkey
      simp only [runCalls]
      cases hcall : get_or_load_func M o c.1 c.2 st with
      | mk r rest =>
        cases rest with
        | mk st2 ev =>
          have := ih hcons' st2
          cases hrun : runCalls M o cs st2 with
          | mk st3 evs =>
            simp only [hcall, hrun] at hother this ⊢
            rw [countCompiles_append, hother.1, hother.2] at *
            omega

/-! Interleaved concurrent execution of `get_or_load_func`.

The body of `get_or_load_func` performs a cache lookup (`has_func`), then —
outside any lock spanning the whole sequence — JIT-compiles and loads on a
miss, then resolves the function.  `stepThread` splits the body into these
three atomic phases acting on the shared device state, and `runSched` runs
two callers of the same key under an arbitrary interleaving schedule. -/

/-- Control point of one in-flight `get_or_load_func` call. -/
inductive Phase where
  | start
  | compileLoad
  | resolve
  | finished : Except CudaError CudaFunction → Phase

/-- One atomic step of a `get_or_load_func` call: the `has_func` lookup
(deciding whether to compile), the compile-and-load section on a miss, and
the final `get_func` resolution, exactly as sequenced in the source. -/
def stepThread (M : FloatModel) (o : Oracle M) (modName source : String) :
    Phase → DeviceState → Phase × DeviceState × List Event
  | .start, st =>
    if st.has_func modName modName then (.resolve, st, [])
    else (.compileLoad, st, [])
  | .compileLoad, st =>
    match o.compilePtx source with
    | .error e => (.finished (.error (.Compiler e)), st, [.compile modName source])
    | .ok ptx =>
      (.resolve, st.load_ptx ptx modName [modName],
       [.compile modName source, .loadModule modName])
  | .resolve, st =>
    match st.get_func modName modName with
    | some f => (.finished (.ok f), st, [])
    | none => (.finished (.error (.MissingKernel modName)), st, [])
  | .finished r, st => (.finished r, st, [])

/-- Runs two concurrent callers of `get_or_load_func` for the same key over
the shared device state; the schedule picks which caller performs its next
atomic step. -/
def runSched (M : FloatModel) (o : Oracle M) (modName source : String) :
    List Bool → Phase → Phase → DeviceState →
      Phase × Phase × DeviceState × List Event
  | [], p1, p2, st => (p1, p2, st, [])
  | b :: bs, p1, p2, st =>
    if b then
      match stepThread M o modName source p1 st with
      | (p1', st', ev) =>
        match runSched M o modName source bs p1' p2 st' with
        | (q1, q2, st2, evs) => (q1, q2, st2, ev ++ evs)
    else
      match stepThread M o modName source p2 st with
      | (p2', st', ev) =>
        match runSched M o modName source bs p1 p2' st' with
        | (q1, q2, st2, evs) => (q1, q2, st2, ev ++ evs)

/-! Concrete instances used to witness the theorems on closed inputs. -/

/-- A well-behaved driver environment: the two embedded kernel sources
JIT-compile to modules exposing their per-dtype entry points (the spec's
naming contract for the kernel source texts), and no allocation, copy or
launch fails. -/
structure Oracle.Good {M : FloatModel} (o : Oracle M) : Prop where
  affineCompile : ∃ ptx, o.compilePtx AFFINE_CU = .ok ptx ∧
    "affine_f32" ∈ ptx.entryPoints ∧ "affine_f64" ∈ ptx.entryPoints
  fillCompile : ∃ ptx, o.compilePtx FILL_CU = .ok ptx ∧
    "fill_f32" ∈ ptx.entryPoints ∧ "fill_f64" ∈ ptx.entryPoints
  allocZerosOk : ∀ n, o.allocZerosFail n = none
  allocOk : ∀ n, o.allocFail n = none
  htodOk : o.htodFail = none
  dtohOk : o.dtohFail = none
  launchOk : o.launchFail = none

/-- A concrete computable float model over the integers.  The narrowing
cast `toF32` is deliberately lossy (reduction modulo 97) so that the
difference between casting the scalars down before the multiply-add and
truncating afterwards is observable. -/
@[reducible] def intModel : FloatModel where
  F32 := Int
  F64 := Int
  toF32 := fun x => x % 97
  mul32 := fun x y => x * y
  add32 := fun x y => x + y
  mul64 := fun x y => x * y
  add64 := fun x y => x + y
  zero32 := 0
  zero64 := 0
  one64 := 1

/-- A concrete well-behaved oracle over `intModel`: both embedded sources
compile to modules with the expected entry points, nothing fails, and
uninitialized allocations are filled with the junk value `55`. -/
def goodOracle : Oracle intModel where
  compilePtx := fun src =>
    if src == AFFINE_CU then .ok ⟨["affine_f32", "affine_f64"]⟩
    else if src == FILL_CU then .ok ⟨["fill_f16", "fill_f32", "fill_f64"]⟩
    else .error ⟨0⟩
  allocZerosFail := fun _ => none
  allocFail := fun _ => none
  uninit32 := fun n => List.replicate n 55
  uninit64 := fun n => List.replicate n 55
  uninit32_len := fun n => List.length_replicate n 55
  uninit64_len := fun n => List.length_replicate n 55
  htodFail := none
  dtohFail := none
  launchFail := none

/-- The concrete oracle is well-behaved. -/
theorem goodOracle_good : goodOracle.Good where
  affineCompile := ⟨⟨["affine_f32", "affine_f64"]⟩, rfl, by simp, by simp⟩
  fillCompile := ⟨⟨["fill_f16", "fill_f32", "fill_f64"]⟩, rfl, by simp, by simp⟩
  allocZerosOk := fun _ => rfl
  allocOk := fun _ => rfl
  htodOk := rfl
  dtohOk := rfl
  launchOk := rfl

/-! Helper lemmas about `const_impl` under a well-behaved driver. -/

/-- A fill launch over zero elements is a no-op. -/
theorem fillKernel_numel_zero (v : α) (nthreads : Nat) (buf : List α) :
    fillKernel v 0 nthreads buf = buf := by
  unfold fillKernel
  generalize List.range nthreads = l
  induction l generalizing buf with
  | nil => rfl
  | cons i0 l ih => rw [List.foldl_cons]; exact ih buf

/-- The launch configuration for a positive element count provides at least
one thread. -/
theorem for_num_elems_nthreads_pos (n : Nat) (hn : 1 ≤ n) :
    1 ≤ (LaunchConfig.for_num_elems n).nthreads := by
  simp only [LaunchConfig.for_num_elems, LaunchConfig.nthreads]
  omega

/-- The fill launch performed by `const_impl` produces the constant
buffer. -/
theorem fillKernel_const_launch (numel : Nat)
    (w : α) (buf : List α) (hlen : buf.length = numel) :
    fillKernel w numel (LaunchConfig.for_num_elems numel).nthreads buf =
      List.replicate numel w := by
  by_cases hn : numel = 0
  · subst hn
    rw [fillKernel_numel_zero, List.replicate_zero]
    exact List.length_eq_zero.mp hlen
  · exact fillKernel_eq_replicate w numel _
      (for_num_elems_nthreads_pos numel (by omega)) buf hlen

/-- Under a well-behaved driver, and with an element count below `2 ^ 32`
(so that the `as u32` wrap of the launch-configuration element count is the
identity), `const_impl` at dtype `F32` succeeds and returns a buffer of
`shape.elem_count()` copies of the narrowed scalar `v as f32`. -/
theorem const_impl_ok_f32 (M : FloatModel) (o : Oracle M) (hg : o.Good)
    (v : M.F64) (shape : Shape) (st : DeviceState)
    (hlt : shape.elem_count < 2 ^ 32) :
    ∃ st2 ev,
      const_impl M o v shape .F32 st =
        (.ok (.F32 (List.replicate shape.elem_count (M.toF32 v))), st2, ev) := by
  rcases hg.fillCompile with ⟨ptx, hc, h32, h64⟩
  rcases get_or_load_func_ok M o "fill_f32" FILL_CU st ptx hc h32 with
    ⟨f, st2, ev, heq⟩
  refine ⟨st2, .alloc shape.elem_count :: (ev ++ [.launch "fill_f32"]), ?_⟩
  have hmod : shape.elem_count % 2 ^ 32 = shape.elem_count :=
    Nat.mod_eq_of_lt hlt
  have hfill := fillKernel_const_launch shape.elem_count (M.toF32 v)
    (o.uninit32 shape.elem_count) (o.uninit32_len shape.elem_count)
  simp only [const_impl, hmod, hg.allocOk, heq, hg.launchOk, hfill]

/-- Under a well-behaved driver, and with an element count below `2 ^ 32`
(so that the `as u32` wrap of the launch-configuration element count is the
identity), `const_impl` at dtype `F64` succeeds and returns a buffer of
`shape.elem_count()` copies of the full-precision scalar. -/
theorem const_impl_ok_f64 (M : FloatModel) (o : Oracle M) (hg : o.Good)
    (v : M.F64) (shape : Shape) (st : DeviceState)
    (hlt : shape.elem_count < 2 ^ 32) :
    ∃ st2 ev,
      const_impl M o v shape .F64 st =
        (.ok (.F64 (List.replicate shape.elem_count v)), st2, ev) := by
  rcases hg.fillCompile with ⟨ptx, hc, h32, h64⟩
  rcases get_or_load_func_ok M o "fill_f64" FILL_CU st ptx hc h64 with
    ⟨f, st2, ev, heq⟩
  refine ⟨st2, .alloc shape.elem_count :: (ev ++ [.launch "fill_f64"]), ?_⟩
  have hmod : shape.elem_count % 2 ^ 32 = shape.elem_count :=
    Nat.mod_eq_of_lt hlt
  have hfill := fillKernel_const_launch shape.elem_count v
    (o.uninit64 shape.elem_count) (o.uninit64_len shape.elem_count)
  simp only [const_impl, hmod, hg.allocOk, heq, hg.launchOk, hfill]

/-! Claim theorems. -/

/-- C2: for every (shape, stride) pair for which `shape.is_contiguous
(stride)` is false, `affine` returns a `RequiresContiguous` error carrying
the operation name "affine", performs no device allocation, no kernel
resolution and no kernel launch (the driver-event log is empty), produces
no output storage, and leaves the device state unchanged. -/
theorem affine_noncontiguous_rejects (M : FloatModel) (o : Oracle M)
    (self : CudaStorage M) (shape : Shape) (stride : List Nat)
    (mul add : M.F64) (st : DeviceState)
    (h : shape.is_contiguous stride = false) :
    affine_impl M o self shape stride mul add st =
      (.error (.RequiresContiguous "affine"), st, []) := by
  simp [affine_impl, h]

/-- Witness for C2 at a concrete transposed view: shape `[2, 2]` with
stride `[1, 2]` is non-contiguous and `affine` rejects it without touching
the device. -/
theorem affine_noncontiguous_rejects_witness :
    Shape.is_contiguous [2, 2] [1, 2] = false ∧
    affine_impl intModel goodOracle (.F32 [1, 2, 3, 4]) [2, 2] [1, 2] 5 7 ⟨[]⟩ =
      (.error (.RequiresContiguous "affine"), ⟨[]⟩, []) :=
  ⟨by decide,
   affine_noncontiguous_rejects intModel goodOracle (.F32 [1, 2, 3, 4])
     [2, 2] [1, 2] 5 7 ⟨[]⟩ (by decide)⟩

/-- C4: for every host buffer of a supported dtype, a host-to-device copy
followed by a device-to-host copy returns the original buffer (same dtype,
same length, equal element-for-element), provided neither synchronous copy
fails. -/
theorem to_host_from_host_roundtrip (M : FloatModel) (o : Oracle M)
    (ho1 : o.htodFail = none) (ho2 : o.dtohFail = none)
    (b : CpuStorage M) (st : DeviceState) :
    ∃ s st2 ev st3 ev2,
      cuda_from_cpu_storage M o b st = (.ok s, st2, ev) ∧
      to_cpu_storage M o s st2 = (.ok b, st3, ev2) := by
  cases b with
  | F32 xs =>
    exact ⟨.F32 xs, st, [.htodCopy xs.length], st, [.dtohCopy xs.length],
      by simp [cuda_from_cpu_storage, ho1], by simp [to_cpu_storage, ho2]⟩
  | F64 xs =>
    exact ⟨.F64 xs, st, [.htodCopy xs.length], st, [.dtohCopy xs.length],
      by simp [cuda_from_cpu_storage, ho1], by simp [to_cpu_storage, ho2]⟩

/-- Witness for C4 on the concrete F32 buffer `[1, 2, 3, 4]`. -/
theorem to_host_from_host_roundtrip_witness :
    goodOracle.htodFail = none ∧ goodOracle.dtohFail = none ∧
    ∃ s st2 ev st3 ev2,
      cuda_from_cpu_storage intModel goodOracle (.F32 [1, 2, 3, 4]) ⟨[]⟩ =
        (.ok s, st2, ev) ∧
      to_cpu_storage intModel goodOracle s st2 =
        (.ok (.F32 [1, 2, 3, 4]), st3, ev2) :=
  ⟨rfl, rfl,
   to_host_from_host_roundtrip intModel goodOracle rfl rfl (.F32 [1, 2, 3, 4]) ⟨[]⟩⟩

/-- C10: `zeros` and `from_host` either succeed or fail with the
driver-error kind; neither can return a contiguity-violation, compilation
or missing-kernel error, and their driver-event logs show a single
allocation (resp. copy) call — no kernel resolution ever happens. -/
theorem zeros_from_host_driver_error_only (M : FloatModel) (o : Oracle M)
    (shape : Shape) (dtype : DType) (b : CpuStorage M) (st : DeviceState) :
    ((∃ s, (zeros_impl M o shape dtype st).1 = .ok s) ∨
      (∃ e, (zeros_impl M o shape dtype st).1 = .error (.Cuda e))) ∧
    (zeros_impl M o shape dtype st).2.2 = [.allocZeros shape.elem_count] ∧
    ((∃ s, (cuda_from_cpu_storage M o b st).1 = .ok s) ∨
      (∃ e, (cuda_from_cpu_storage M o b st).1 = .error (.Cuda e))) := by
  refine ⟨?_, ?_, ?_⟩
  · cases dtype <;>
      cases h : o.allocZerosFail shape.elem_count <;>
      simp [zeros_impl, h]
  · cases dtype <;>
      cases h : o.allocZerosFail shape.elem_count <;>
      simp [zeros_impl, h]
  · cases b <;>
      cases h : o.htodFail <;>
      simp [cuda_from_cpu_storage, h]

/-- C5: `zeros` uses the device's zero-allocation primitive only (the event
log is exactly one `allocZeros` call — never a compilation or a kernel
launch), can fail only with a driver error, and on success a subsequent
`to_host` yields `shape.elem_count()` copies of the dtype's zero value. -/
theorem zeros_correct (M : FloatModel) (o : Oracle M) (shape : Shape)
    (dtype : DType) (st : DeviceState) :
    (zeros_impl M o shape dtype st).2.2 = [.allocZeros shape.elem_count] ∧
    ((∃ s, (zeros_impl M o shape dtype st).1 = .ok s) ∨
      (∃ e, (zeros_impl M o shape dtype st).1 = .error (.Cuda e))) ∧
    (o.allocZerosFail shape.elem_count = none → o.dtohFail = none →
      ∃ s st2 ev st3 ev2,
        zeros_impl M o shape dtype st = (.ok s, st2, ev) ∧
        to_cpu_storage M o s st2 =
          (.ok (match dtype with
                | .F32 => CpuStorage.F32 (List.replicate shape.elem_count M.zero32)
                | .F64 => CpuStorage.F64 (List.replicate shape.elem_count M.zero64)),
           st3, ev2)) := by
  refine ⟨?_, ?_, fun halloc hdtoh => ?_⟩
  · cases dtype <;>
      cases h : o.allocZerosFail shape.elem_count <;>
      simp [zeros_impl, h]
  · cases dtype <;>
      cases h : o.allocZerosFail shape.elem_count <;>
      simp [zeros_impl, h]
  cases dtype with
  | F32 =>
    refine ⟨.F32 (List.replicate shape.elem_count M.zero32),
      st, [.allocZeros shape.elem_count], st,
      [.dtohCopy (List.replicate shape.elem_count M.zero32).length], ?_, ?_⟩
    · simp [zeros_impl, halloc]
    · simp [to_cpu_storage, hdtoh]
  | F64 =>
    refine ⟨.F64 (List.replicate shape.elem_count M.zero64),
      st, [.allocZeros shape.elem_count], st,
      [.dtohCopy (List.replicate shape.elem_count M.zero64).length], ?_, ?_⟩
    · simp [zeros_impl, halloc]
    · simp [to_cpu_storage, hdtoh]

/-- Witness for C5 at the concrete scenario of shape `[3, 3]`, dtype F64:
`zeros` then `to_host` yields nine zero values. -/
theorem zeros_correct_witness :
    goodOracle.allocZerosFail (Shape.elem_count [3, 3]) = none ∧
    goodOracle.dtohFail = none ∧
    (zeros_impl intModel goodOracle [3, 3] .F64 ⟨[]⟩).2.2 =
      [.allocZeros (Shape.elem_count [3, 3])] ∧
    ∃ s st2 ev st3 ev2,
      zeros_impl intModel goodOracle [3, 3] .F64 ⟨[]⟩ = (.ok s, st2, ev) ∧
      to_cpu_storage intModel goodOracle s st2 =
        (.ok (CpuStorage.F64 (List.replicate (Shape.elem_count [3, 3]) intModel.zero64)),
         st3, ev2) :=
  ⟨rfl, rfl, (zeros_correct intModel goodOracle [3, 3] .F64 ⟨[]⟩).1,
   (zeros_correct intModel goodOracle [3, 3] .F64 ⟨[]⟩).2.2 rfl rfl⟩

/-- C1 (amended): for a storage holding `x` and a contiguous (shape,
stride) pair of matching element count below `2 ^ 32`, `affine` succeeds
with a new storage of the same dtype and element count in which
`output[i] = input[i] * mul + add` at the buffer's native precision; for
the F32 variant `mul` and `add` are first narrowed by the `as f32` cast and
the multiply-add is performed on the narrowed scalars, while the F64
variant uses the scalars at full precision.  The bound is needed because
the launch configuration is derived from `elem_count as u32` and the affine
kernels have no grid-stride loop. -/
theorem affine_contiguous_correct (M : FloatModel) (o : Oracle M)
    (hg : o.Good) (shape : Shape) (stride : List Nat)
    (hc : shape.is_contiguous stride = true)
    (hlt : shape.elem_count < 2 ^ 32) (mul add : M.F64)
    (st : DeviceState) :
    (∀ xs : List M.F32, xs.length = shape.elem_count →
      ∃ st2 ev,
        affine_impl M o (.F32 xs) shape stride mul add st =
          (.ok (.F32 (xs.map
            (fun x => M.add32 (M.mul32 x (M.toF32 mul)) (M.toF32 add)))),
           st2, ev)) ∧
    (∀ xs : List M.F64, xs.length = shape.elem_count →
      ∃ st2 ev,
        affine_impl M o (.F64 xs) shape stride mul add st =
          (.ok (.F64 (xs.map (fun x => M.add64 (M.mul64 x mul) add))),
           st2, ev)) := by
  rcases hg.affineCompile with ⟨ptx, hcomp, h32, h64⟩
  have hmod : shape.elem_count % 2 ^ 32 = shape.elem_count :=
    Nat.mod_eq_of_lt hlt
  constructor
  · intro xs hlen
    rcases get_or_load_func_ok M o "affine_f32" AFFINE_CU st ptx hcomp h32 with
      ⟨f, st2, ev, heq⟩
    refine ⟨st2, ev ++ [.alloc shape.elem_count, .launch "affine_f32"], ?_⟩
    have hker := affineKernel_eq_map M.mul32 M.add32 xs shape.elem_count
      (M.toF32 mul) (M.toF32 add)
      (LaunchConfig.for_num_elems (shape.elem_count % 2 ^ 32)).nthreads
      (o.uninit32 shape.elem_count) hlen (o.uninit32_len shape.elem_count)
      (by rw [hmod]; exact for_num_elems_nthreads_ge shape.elem_count)
    simp [affine_impl, hc, heq, hg.allocOk, hg.launchOk]
    exact hker
  · intro xs hlen
    rcases get_or_load_func_ok M o "affine_f64" AFFINE_CU st ptx hcomp h64 with
      ⟨f, st2, ev, heq⟩
    refine ⟨st2, ev ++ [.alloc shape.elem_count, .launch "affine_f64"], ?_⟩
    have hker := affineKernel_eq_map M.mul64 M.add64 xs shape.elem_count
      mul add (LaunchConfig.for_num_elems (shape.elem_count % 2 ^ 32)).nthreads
      (o.uninit64 shape.elem_count) hlen (o.uninit64_len shape.elem_count)
      (by rw [hmod]; exact for_num_elems_nthreads_ge shape.elem_count)
    simp [affine_impl, hc, heq, hg.allocOk, hg.launchOk]
    exact hker

/-- Witness for C1: shape `[4]`, stride `[1]`, F32 input `[1, 2, 3, 4]`
with `mul = 100`, `add = 200` — under the lossy concrete cast (mod 97) the
output applies the narrowed scalars `3` and `6`, showing the cast happens
before the multiply-add. -/
theorem affine_contiguous_correct_witness :
    goodOracle.Good ∧ Shape.is_contiguous [4] [1] = true ∧
    Shape.elem_count [4] < 2 ^ 32 ∧
    ∃ st2 ev,
      affine_impl intModel goodOracle (.F32 [1, 2, 3, 4]) [4] [1] 100 200 ⟨[]⟩ =
        (.ok (.F32 ([1, 2, 3, 4].map
          (fun x => intModel.add32 (intModel.mul32 x (intModel.toF32 100))
            (intModel.toF32 200)))), st2, ev) :=
  ⟨goodOracle_good, by decide, by decide,
   (affine_contiguous_correct intModel goodOracle goodOracle_good [4] [1]
     (by decide) (by decide) 100 200 ⟨[]⟩).1 [1, 2, 3, 4] (by decide)⟩

/-- C6 (amended): for counts below `2 ^ 32` (the loop index of the CUDA
kernel is a 32-bit unsigned int) the fill kernel writes the value to every
index in `[0, count)` via its grid-stride loop for any launch with at least
one thread — even when the launch provides fewer threads than elements —
and consequently, for shapes whose element count is below `2 ^ 32`,
`constant(value, shape, dtype)` populates every one of the `elem_count`
elements of its freshly allocated buffer with the value (narrowed to f32
for the F32 variant, full-precision for F64).  The bound on the shape is
needed because the launch configuration is derived from
`elem_count as u32`. -/
theorem fill_every_element (M : FloatModel) (o : Oracle M) (hg : o.Good)
    (v : M.F64) (shape : Shape) (st : DeviceState)
    (hlt : shape.elem_count < 2 ^ 32) :
    (∀ (β : Type) (w : β) (numel nthreads : Nat) (buf : List β),
      numel < 2 ^ 32 → 1 ≤ nthreads → buf.length = numel →
      fillKernel w numel nthreads buf = List.replicate numel w) ∧
    (∃ st2 ev,
      const_impl M o v shape .F32 st =
        (.ok (.F32 (List.replicate shape.elem_count (M.toF32 v))), st2, ev)) ∧
    (∃ st2 ev,
      const_impl M o v shape .F64 st =
        (.ok (.F64 (List.replicate shape.elem_count v)), st2, ev)) :=
  ⟨fun _β w numel nthreads buf _hn h1 h2 =>
    fillKernel_eq_replicate w numel nthreads h1 buf h2,
   const_impl_ok_f32 M o hg v shape st hlt,
   const_impl_ok_f64 M o hg v shape st hlt⟩

/-- Witness for C6: a launch of 2 threads fills a 5-element buffer (fewer
threads than elements), and `const_impl` on shape `[5]` populates every
element. -/
theorem fill_every_element_witness :
    goodOracle.Good ∧ Shape.elem_count [5] < 2 ^ 32 ∧ (5 : Nat) < 2 ^ 32 ∧
    1 ≤ 2 ∧ ([9, 9, 9, 9, 9] : List Int).length = 5 ∧
    fillKernel (3 : Int) 5 2 [9, 9, 9, 9, 9] = List.replicate 5 3 ∧
    ∃ st2 ev,
      const_impl intModel goodOracle 40 [5] .F64 ⟨[]⟩ =
        (.ok (.F64 (List.replicate (Shape.elem_count [5]) 40)), st2, ev) :=
  ⟨goodOracle_good, by decide, by decide, by decide, by decide,
   (fill_every_element intModel goodOracle goodOracle_good 40 [5] ⟨[]⟩
     (by decide)).1 Int 3 5 2 [9, 9, 9, 9, 9] (by decide) (by decide) (by decide),
   (fill_every_element intModel goodOracle goodOracle_good 40 [5] ⟨[]⟩
     (by decide)).2.2⟩

/-- C7 (amended): `ones(shape, dtype)` is definitionally
`constant(1, shape, dtype)` — the two agree on every input — and under a
well-behaved driver, for shapes whose element count is below `2 ^ 32`
(the launch configuration is derived from `elem_count as u32`), `ones`
produces a buffer of `elem_count` copies of the dtype's one value (the
narrowed `1.0` for F32, the full-precision `1.0` for F64). -/
theorem ones_is_constant_one (M : FloatModel) (o : Oracle M) (hg : o.Good)
    (shape : Shape) (dtype : DType) (st : DeviceState) :
    ones_impl M o shape dtype st = const_impl M o M.one64 shape dtype st ∧
    (shape.elem_count < 2 ^ 32 →
      ∃ st2 ev,
        ones_impl M o shape dtype st =
          (.ok (match dtype with
                | .F32 => CudaStorage.F32
                    (List.replicate shape.elem_count (M.toF32 M.one64))
                | .F64 => CudaStorage.F64
                    (List.replicate shape.elem_count M.one64)),
           st2, ev)) := by
  refine ⟨rfl, fun hlt => ?_⟩
  cases dtype with
  | F32 => exact const_impl_ok_f32 M o hg M.one64 shape st hlt
  | F64 => exact const_impl_ok_f64 M o hg M.one64 shape st hlt

/-- Witness for C7 at the concrete scenario of shape `[2]`, dtype F32:
`ones` agrees with `constant(1)` and yields two copies of the one value. -/
theorem ones_is_constant_one_witness :
    goodOracle.Good ∧ Shape.elem_count [2] < 2 ^ 32 ∧
    ones_impl intModel goodOracle [2] .F32 ⟨[]⟩ =
      const_impl intModel goodOracle intModel.one64 [2] .F32 ⟨[]⟩ ∧
    ∃ st2 ev,
      ones_impl intModel goodOracle [2] .F32 ⟨[]⟩ =
        (.ok (CudaStorage.F32
           (List.replicate (Shape.elem_count [2]) (intModel.toF32 intModel.one64))),
         st2, ev) :=
  ⟨goodOracle_good, by decide,
   (ones_is_constant_one intModel goodOracle goodOracle_good [2] .F32 ⟨[]⟩).1,
   (ones_is_constant_one intModel goodOracle goodOracle_good [2] .F32 ⟨[]⟩).2
     (by decide)⟩

/-- C9 (amended): for shapes whose element count is below `2 ^ 32` (the
launch configuration is derived from `elem_count as u32`),
`constant(v, shape, F32)` stores the `as f32` narrowing of the f64 scalar
into every element — the cast happens before the fill kernel runs — while
the F64 variant passes the scalar through at full precision. -/
theorem constant_narrows_scalar_to_f32 (M : FloatModel) (o : Oracle M)
    (hg : o.Good) (v : M.F64) (shape : Shape) (st : DeviceState)
    (hlt : shape.elem_count < 2 ^ 32) :
    (∃ st2 ev,
      const_impl M o v shape .F32 st =
        (.ok (.F32 (List.replicate shape.elem_count (M.toF32 v))), st2, ev)) ∧
    (∃ st2 ev,
      const_impl M o v shape .F64 st =
        (.ok (.F64 (List.replicate shape.elem_count v)), st2, ev)) :=
  ⟨const_impl_ok_f32 M o hg v shape st hlt,
   const_impl_ok_f64 M o hg v shape st hlt⟩

/-- Witness for C9 at scalar `100` on shape `[3]`: under the lossy concrete
cast, the F32 variant stores `100 mod 97 = 3` (not `100`) in every element,
while the F64 variant stores `100`. -/
theorem constant_narrows_scalar_to_f32_witness :
    goodOracle.Good ∧ Shape.elem_count [3] < 2 ^ 32 ∧ intModel.toF32 100 = 3 ∧
    ((∃ st2 ev,
       const_impl intModel goodOracle 100 [3] .F32 ⟨[]⟩ =
         (.ok (.F32 (List.replicate (Shape.elem_count [3]) (intModel.toF32 100))),
          st2, ev)) ∧
     (∃ st2 ev,
       const_impl intModel goodOracle 100 [3] .F64 ⟨[]⟩ =
         (.ok (.F64 (List.replicate (Shape.elem_count [3]) 100)), st2, ev))) :=
  ⟨goodOracle_good, by decide, by decide,
   constant_narrows_scalar_to_f32 intModel goodOracle goodOracle_good 100 [3]
     ⟨[]⟩ (by decide)⟩

/-- After loading a module whose compiled PTX does not expose the key, the
lookup for that key still fails. -/
theorem get_func_load_ptx_absent (st : DeviceState) (ptx : Ptx) (k : String)
    (h2 : k ∉ ptx.entryPoints) :
    (st.load_ptx ptx k [k]).get_func k k = none := by
  unfold DeviceState.load_ptx DeviceState.get_func
  rw [List.find?_cons_of_pos _ (by simp)]
  simp [h2]

/-- C8: `get_or_load_func` fails with a compile error exactly when the
cache misses and the source fails to JIT-compile, fails with a
missing-kernel error naming the requested kernel exactly when the cache
misses, compilation succeeds, but the requested entry point is absent from
the loaded module, and in every other case returns the compiled kernel
handle. -/
theorem get_or_load_func_error_characterization (M : FloatModel)
    (o : Oracle M) (modName source : String) (st : DeviceState) :
    ((∃ e, (get_or_load_func M o modName source st).1 = .error (.Compiler e)) ↔
      (st.has_func modName modName = false ∧
        ∃ e, o.compilePtx source = .error e)) ∧
    (((get_or_load_func M o modName source st).1 =
        .error (.MissingKernel modName)) ↔
      (st.has_func modName modName = false ∧
        ∃ ptx, o.compilePtx source = .ok ptx ∧ modName ∉ ptx.entryPoints)) ∧
    ((∃ f, (get_or_load_func M o modName source st).1 = .ok f) ↔
      (st.has_func modName modName = true ∨
        ∃ ptx, o.compilePtx source = .ok ptx ∧ modName ∈ ptx.entryPoints)) := by
  by_cases hh : st.has_func modName modName = true
  · rcases get_or_load_func_hit M o modName source st hh with ⟨f, hf⟩
    rw [hf]
    refine ⟨?_, ?_, ?_⟩
    · simp [hh]
    · simp [hh]
    · simp [hh]
  · have hmiss : st.has_func modName modName = false := by simpa using hh
    cases hcp : o.compilePtx source with
    | error e =>
      have hres : get_or_load_func M o modName source st =
          (.error (.Compiler e), st, [.compile modName source]) := by
        simp [get_or_load_func, hmiss, hcp]
      rw [hres]
      refine ⟨?_, ?_, ?_⟩
      · exact ⟨fun _ => ⟨hmiss, e, rfl⟩, fun _ => ⟨e, rfl⟩⟩
      · constructor
        · intro h
          exact absurd h (by simp)
        · rintro ⟨-, ptx, hp, -⟩
          exact absurd hp (by simp)
      · constructor
        · rintro ⟨f, hf⟩
          exact absurd hf (by simp)
        · rintro (h | ⟨ptx, hp, -⟩)
          · rw [hmiss] at h
            exact absurd h (by simp)
          · exact absurd hp (by simp)
    | ok ptx =>
      by_cases hmem : modName ∈ ptx.entryPoints
      · rw [get_or_load_func_miss_ok M o modName source st ptx hcp hmem hmiss]
        refine ⟨?_, ?_, ?_⟩
        · constructor
          · rintro ⟨e, he⟩
            exact absurd he (by simp)
          · rintro ⟨-, e, he⟩
            exact absurd he (by simp)
        · constructor
          · intro h
            exact absurd h (by simp)
          · rintro ⟨-, ptx2, hp2, hm2⟩
            cases hp2
            exact absurd hmem hm2
        · exact ⟨fun _ => Or.inr ⟨ptx, rfl, hmem⟩, fun _ => ⟨⟨modName⟩, rfl⟩⟩
      · have hres : get_or_load_func M o modName source st =
            (.error (.MissingKernel modName),
             st.load_ptx ptx modName [modName],
             [.compile modName source, .loadModule modName]) := by
          simp [get_or_load_func, hmiss, hcp,
            get_func_load_ptx_absent st ptx modName hmem]
        rw [hres]
        refine ⟨?_, ?_, ?_⟩
        · simp [hcp]
        · simp [hmiss, hcp, hmem]
        · constructor
          · rintro ⟨f, hf⟩
            exact absurd hf (by simp)
          · rintro (h | ⟨ptx2, hp2, hm2⟩)
            · rw [hmiss] at h
              exact absurd h (by simp)
            · cases hp2
              exact absurd hm2 hmem

/-- C3 (amended, sequential part): when the source registered for a cache
key compiles to a module exposing that key, a cache hit resolves without
any driver call, and any sequence of cache resolutions that consistently
pairs the key with its source compiles the key at most once (not at all if
it is already cached): compilation is triggered only by a cache miss and
every subsequent lookup reuses the compiled entry. -/
theorem kernel_compiled_at_most_once_sequential (M : FloatModel)
    (o : Oracle M) (k s : String) (ptx : Ptx)
    (h1 : o.compilePtx s = .ok ptx) (h2 : k ∈ ptx.entryPoints) :
    (∀ st, st.has_func k k = true →
      ∃ f, get_or_load_func M o k s st = (.ok f, st, [])) ∧
    (∀ calls : List (String × String),
      (∀ c ∈ calls, c.1 = k → c.2 = s) → ∀ st,
      countCompiles k (runCalls M o calls st).2 ≤
        if st.has_func k k then 0 else 1) :=
  ⟨fun st hhit => get_or_load_func_hit M o k s st hhit,
   fun calls hcons st => runCalls_compile_once M o k s ptx h1 h2 calls hcons st⟩

/-- Witness for C3's amended sequential statement: three consecutive
resolutions of `fill_f32` (interleaved with one of `affine_f32`) starting
from an empty cache compile `fill_f32` exactly once. -/
theorem kernel_compiled_at_most_once_sequential_witness :
    goodOracle.compilePtx FILL_CU = .ok ⟨["fill_f16", "fill_f32", "fill_f64"]⟩ ∧
    "fill_f32" ∈ (⟨["fill_f16", "fill_f32", "fill_f64"]⟩ : Ptx).entryPoints ∧
    (∀ c ∈ [("fill_f32", FILL_CU), ("affine_f32", AFFINE_CU), ("fill_f32", FILL_CU)],
      c.1 = "fill_f32" → c.2 = FILL_CU) ∧
    countCompiles "fill_f32"
      (runCalls intModel goodOracle
        [("fill_f32", FILL_CU), ("affine_f32", AFFINE_CU), ("fill_f32", FILL_CU)]
        ⟨[]⟩).2 ≤
      if DeviceState.has_func ⟨[]⟩ "fill_f32" "fill_f32" then 0 else 1 :=
  ⟨rfl, by decide, by decide,
   (kernel_compiled_at_most_once_sequential intModel goodOracle "fill_f32"
       FILL_CU ⟨["fill_f16", "fill_f32", "fill_f64"]⟩ rfl (by decide)).2
     [("fill_f32", FILL_CU), ("affine_f32", AFFINE_CU), ("fill_f32", FILL_CU)]
     (by decide) ⟨[]⟩⟩

/-- Counterexample to C3 as stated: under concurrent invocation the
check-then-compile sequence of `get_or_load_func` is not atomic, so two
callers of the same key can both observe a cache miss and both JIT-compile
it.  The concrete schedule lets both callers run their `has_func` lookup
before either compiles: the run completes with both callers obtaining the
kernel handle, yet the key is compiled twice. -/
theorem kernel_compile_race_counterexample :
    (runSched intModel goodOracle "affine_f32" AFFINE_CU
        [true, false, true, false, true, false] .start .start ⟨[]⟩).1 =
      .finished (.ok ⟨"affine_f32"⟩) ∧
    (runSched intModel goodOracle "affine_f32" AFFINE_CU
        [true, false, true, false, true, false] .start .start ⟨[]⟩).2.1 =
      .finished (.ok ⟨"affine_f32"⟩) ∧
    countCompiles "affine_f32"
      (runSched intModel goodOracle "affine_f32" AFFINE_CU
        [true, false, true, false, true, false] .start .start ⟨[]⟩).2.2.2 = 2 :=
  ⟨rfl, rfl, rfl⟩

/-- Counterexample to C1 as stated (without the element-count bound): at
shape `[2 ^ 32 + 1]` the launch configuration is derived from the `as u32`
wrapped count `1`, providing only 1024 threads, and the affine kernel has
no grid-stride loop — so `affine` returns `Ok` while index `1024` still
holds the uninitialized junk value `55` instead of
`input[1024] * mul + add = 3`. -/
theorem affine_launch_wrap_counterexample :
    ∃ st2 ev,
      affine_impl intModel goodOracle (.F64 (List.replicate (2 ^ 32 + 1) 0))
          [2 ^ 32 + 1] [1] 2 3 ⟨[]⟩ =
        (.ok (.F64 (affineKernel intModel.mul64 intModel.add64
            (List.replicate (2 ^ 32 + 1) 0) (Shape.elem_count [2 ^ 32 + 1]) 2 3
            (LaunchConfig.for_num_elems
              (Shape.elem_count [2 ^ 32 + 1] % 2 ^ 32)).nthreads
            (List.replicate (Shape.elem_count [2 ^ 32 + 1]) 55))), st2, ev) ∧
      (affineKernel intModel.mul64 intModel.add64
          (List.replicate (2 ^ 32 + 1) 0) (Shape.elem_count [2 ^ 32 + 1]) 2 3
          (LaunchConfig.for_num_elems
            (Shape.elem_count [2 ^ 32 + 1] % 2 ^ 32)).nthreads
          (List.replicate (Shape.elem_count [2 ^ 32 + 1]) 55))[1024]? =
        some 55 ∧
      ((List.replicate (2 ^ 32 + 1) (0 : Int)).map
          (fun x => intModel.add64 (intModel.mul64 x 2) 3))[1024]? = some 3 ∧
      (55 : Int) ≠ 3 := by
  have hn : (LaunchConfig.for_num_elems
      (Shape.elem_count [2 ^ 32 + 1] % 2 ^ 32)).nthreads = 1024 := rfl
  refine ⟨⟨[("affine_f64", ["affine_f64"])]⟩,
    [.compile "affine_f64" AFFINE_CU, .loadModule "affine_f64",
     .alloc (Shape.elem_count [2 ^ 32 + 1]), .launch "affine_f64"],
    rfl, ?_, ?_, by decide⟩
  · have hy : (List.replicate (Shape.elem_count [2 ^ 32 + 1]) (55 : Int)).length =
        Shape.elem_count [2 ^ 32 + 1] := List.length_replicate _ _
    rw [affineKernel_getElem? intModel.mul64 intModel.add64
      (List.replicate (2 ^ 32 + 1) 0) (Shape.elem_count [2 ^ 32 + 1]) 2 3
      (LaunchConfig.for_num_elems
        (Shape.elem_count [2 ^ 32 + 1] % 2 ^ 32)).nthreads
      (List.replicate (Shape.elem_count [2 ^ 32 + 1]) 55) hy 1024]
    rw [if_neg]
    · exact List.getElem?_replicate_of_lt (by decide)
    · rw [hn]
      rintro ⟨-, h, -⟩
      omega
  · rw [List.getElem?_map, List.getElem?_replicate_of_lt (by decide)]
    rfl

/-- A fill launch with zero threads writes nothing: the grid-stride fold
ranges over an empty thread list. -/
theorem fillKernel_nthreads_zero (v : α) (numel : Nat) (buf : List α) :
    fillKernel v numel 0 buf = buf := rfl

/-- Counterexample to C6 as stated (without the element-count bound): at
shape `[2 ^ 32]` the `as u32` wrap makes the launch configuration derive
from element count `0` — zero blocks, zero threads — so the fill launch
writes nothing and `const_impl` returns `Ok` with the buffer still holding
the uninitialized junk value `55` instead of the fill value `40`. -/
theorem fill_launch_wrap_counterexample :
    ∃ st2 ev,
      const_impl intModel goodOracle 40 [2 ^ 32] .F64 ⟨[]⟩ =
        (.ok (.F64 (List.replicate (2 ^ 32) 55)), st2, ev) ∧
      (List.replicate (2 ^ 32) (55 : Int))[0]? = some 55 ∧
      (55 : Int) ≠ 40 := by
  have hmiss : DeviceState.has_func ⟨[]⟩ "fill_f64" "fill_f64" = false := rfl
  have hload := get_or_load_func_miss_ok intModel goodOracle "fill_f64" FILL_CU
    ⟨[]⟩ ⟨["fill_f16", "fill_f32", "fill_f64"]⟩ rfl (by decide) hmiss
  have hec : Shape.elem_count [2 ^ 32] = 2 ^ 32 := by decide
  have hzero : (LaunchConfig.for_num_elems ((2 ^ 32 : Nat) % 2 ^ 32)).nthreads = 0 := by
    decide
  have haf : goodOracle.allocFail (2 ^ 32) = none := rfl
  have hlf : goodOracle.launchFail = none := rfl
  have hun : goodOracle.uninit64 (2 ^ 32) = List.replicate (2 ^ 32) 55 := rfl
  have hst : DeviceState.load_ptx ⟨[]⟩ ⟨["fill_f16", "fill_f32", "fill_f64"]⟩
      "fill_f64" ["fill_f64"] = ⟨[("fill_f64", ["fill_f64"])]⟩ := rfl
  refine ⟨⟨[("fill_f64", ["fill_f64"])]⟩,
    [.alloc (2 ^ 32), .compile "fill_f64" FILL_CU, .loadModule "fill_f64",
     .launch "fill_f64"], ?_, List.getElem?_replicate_of_lt (by decide), by decide⟩
  simp only [const_impl, hec, haf, hload, hlf, hun, hzero,
    fillKernel_nthreads_zero, hst, List.cons_append, List.nil_append]

/-- Counterexample to C7 as stated (without the element-count bound): at
shape `[2 ^ 32]` the zero-thread launch derived from the wrapped count
writes nothing, so `ones` returns `Ok` with junk `55` in place of the one
value `1` — even though `ones = constant(1)` still holds definitionally. -/
theorem ones_launch_wrap_counterexample :
    ∃ st2 ev,
      ones_impl intModel goodOracle [2 ^ 32] .F64 ⟨[]⟩ =
        (.ok (.F64 (List.replicate (2 ^ 32) 55)), st2, ev) ∧
      (List.replicate (2 ^ 32) (55 : Int))[0]? = some 55 ∧
      (55 : Int) ≠ intModel.one64 := by
  have hmiss : DeviceState.has_func ⟨[]⟩ "fill_f64" "fill_f64" = false := rfl
  have hload := get_or_load_func_miss_ok intModel goodOracle "fill_f64" FILL_CU
    ⟨[]⟩ ⟨["fill_f16", "fill_f32", "fill_f64"]⟩ rfl (by decide) hmiss
  have hec : Shape.elem_count [2 ^ 32] = 2 ^ 32 := by decide
  have hzero : (LaunchConfig.for_num_elems ((2 ^ 32 : Nat) % 2 ^ 32)).nthreads = 0 := by
    decide
  have haf : goodOracle.allocFail (2 ^ 32) = none := rfl
  have hlf : goodOracle.launchFail = none := rfl
  have hun : goodOracle.uninit64 (2 ^ 32) = List.replicate (2 ^ 32) 55 := rfl
  have hst : DeviceState.load_ptx ⟨[]⟩ ⟨["fill_f16", "fill_f32", "fill_f64"]⟩
      "fill_f64" ["fill_f64"] = ⟨[("fill_f64", ["fill_f64"])]⟩ := rfl
  refine ⟨⟨[("fill_f64", ["fill_f64"])]⟩,
    [.alloc (2 ^ 32), .compile "fill_f64" FILL_CU, .loadModule "fill_f64",
     .launch "fill_f64"], ?_, List.getElem?_replicate_of_lt (by decide), by decide⟩
  simp only [ones_impl, const_impl, hec, haf, hload, hlf, hun, hzero,
    fillKernel_nthreads_zero, hst, List.cons_append, List.nil_append]

/-- Counterexample to C9 as stated (without the element-count bound): at
shape `[2 ^ 32]` the zero-thread launch derived from the wrapped count
writes nothing, so the F32 `constant(100)` returns `Ok` with junk `55` in
every observable position instead of the narrowed scalar
`toF32 100 = 3`. -/
theorem constant_launch_wrap_counterexample :
    ∃ st2 ev,
      const_impl intModel goodOracle 100 [2 ^ 32] .F32 ⟨[]⟩ =
        (.ok (.F32 (List.replicate (2 ^ 32) 55)), st2, ev) ∧
      (List.replicate (2 ^ 32) (55 : Int))[0]? = some 55 ∧
      intModel.toF32 100 = 3 ∧ (55 : Int) ≠ 3 := by
  have hmiss : DeviceState.has_func ⟨[]⟩ "fill_f32" "fill_f32" = false := rfl
  have hload := get_or_load_func_miss_ok intModel goodOracle "fill_f32" FILL_CU
    ⟨[]⟩ ⟨["fill_f16", "fill_f32", "fill_f64"]⟩ rfl (by decide) hmiss
  have hec : Shape.elem_count [2 ^ 32] = 2 ^ 32 := by decide
  have hzero : (LaunchConfig.for_num_elems ((2 ^ 32 : Nat) % 2 ^ 32)).nthreads = 0 := by
    decide
  have haf : goodOracle.allocFail (2 ^ 32) = none := rfl
  have hlf : goodOracle.launchFail = none := rfl
  have hun : goodOracle.uninit32 (2 ^ 32) = List.replicate (2 ^ 32) 55 := rfl
  have hst : DeviceState.load_ptx ⟨[]⟩ ⟨["fill_f16", "fill_f32", "fill_f64"]⟩
      "fill_f32" ["fill_f32"] = ⟨[("fill_f32", ["fill_f32"])]⟩ := rfl
  refine ⟨⟨[("fill_f32", ["fill_f32"])]⟩,
    [.alloc (2 ^ 32), .compile "fill_f32" FILL_CU, .loadModule "fill_f32",
     .launch "fill_f32"], ?_, List.getElem?_replicate_of_lt (by decide),
    by decide, by decide⟩
  simp only [const_impl, hec, haf, hload, hlf, hun, hzero,
    fillKernel_nthreads_zero, hst, List.cons_append, List.nil_append]

end CandleCuda
